import Mathlib

/-!
Verification of the dubbed-player synchronization and export engine
(`src/components/DubbedPlayer.tsx`, both component variants in that file,
plus `src/types.ts`).

The embedding models the mutable refs and React state of the component as a
single `EngineState` record, and each browser callback of the source
(`handleTimeUpdate`, `source.onended`, `handleSeek`, the play/pause toggle
with its `useEffect`, `handleStartExport`, `handleExport`) as a state
transformer.  Times and the empirical constants (0.3 s trigger window,
0.2 s look-ahead, -0.5 s staleness bound, 5 s caption limit) are rationals.
Decoded audio buffers are modelled by a predicate `buffers : Nat → Bool`
(`buffers i = true` when segment `i`'s asset was fetched and decoded
successfully; the source catches per-segment decode failures and simply
leaves `audioBuffersRef.current[i]` unset).  The field `startedLog` is a
ghost trace recording, in order, each index whose voice was actually
started by `playSegmentAudio` (i.e. `source.start(0)` ran).
-/

namespace DubPlayer

/-- `DubbingSegment` from `src/types.ts`: start time in seconds, caption
text, and the audio asset reference. -/
structure DubbingSegment where
  startTime : ℚ
  text : String
  audioUrl : String
deriving DecidableEq

/-- One `AudioBufferSourceNode` created by `playSegmentAudio`: `id` is the
node's identity (fresh per creation, used by the `onended` cleanup filter),
`index` the segment it plays. -/
structure Voice where
  id : Nat
  index : Nat
deriving DecidableEq

/-- The component's mutable state: React state plus the tracking refs of
`DubbedPlayer`.  `videoPaused` is the `<video>` element's own `paused`
flag (`video.pause()` / `video.play()`), `recordedBlob` the stored export
artifact (variant A), `drawLoop` the canvas `requestAnimationFrame` loop,
`recorderActive` whether a `MediaRecorder` has been started and not
stopped, and `startedLog` the ghost trace of started voices. -/
structure EngineState where
  currentTime : ℚ
  isPlaying : Bool
  videoPaused : Bool
  currentCaption : Option String
  triggered : List Nat
  activeSources : List Voice
  nextVoiceId : Nat
  activeSegmentIndex : Option Nat
  isVideoPausedForDub : Bool
  isExporting : Bool
  isExportingRef : Bool
  drawLoop : Bool
  recorderActive : Bool
  recordedBlob : Option Unit
  startedLog : List Nat
deriving DecidableEq

/-- Component state on mount: nothing playing, video element paused,
no trigger history. -/
def initState : EngineState :=
  { currentTime := 0, isPlaying := false, videoPaused := true,
    currentCaption := none, triggered := [], activeSources := [],
    nextVoiceId := 0, activeSegmentIndex := none,
    isVideoPausedForDub := false, isExporting := false,
    isExportingRef := false, drawLoop := false, recorderActive := false,
    recordedBlob := none, startedLog := [] }

/-- State right after the user pressed play from the initial state. -/
def playingState : EngineState :=
  { initState with isPlaying := true, videoPaused := false }

/-- `stopAllAudio` (lines 122-129): stop every active source, clear the
source list, clear `activeSegmentIndexRef` and `isVideoPausedForDubRef`. -/
def stopAllAudio (s : EngineState) : EngineState :=
  { s with activeSources := [], activeSegmentIndex := none,
           isVideoPausedForDub := false }

/-- `playSegmentAudio(index)` (lines 131-150): if the decoded buffer for
`index` is missing, return without playing; otherwise create a source,
start it, push it on `activeSourcesRef` and set
`activeSegmentIndexRef = index`.  The ghost `startedLog` records the
start. -/
def playSegmentAudio (buffers : Nat → Bool) (index : Nat)
    (s : EngineState) : EngineState :=
  if buffers index then
    { s with
      activeSources := s.activeSources ++ [⟨s.nextVoiceId, index⟩],
      nextVoiceId := s.nextVoiceId + 1,
      activeSegmentIndex := some index,
      startedLog := s.startedLog ++ [index] }
  else s

/-- `t` lies in segment `seg`'s trigger window
`[startTime, startTime + 0.3)` — the guard of the trigger loop. -/
def InWindow (seg : DubbingSegment) (t : ℚ) : Prop :=
  seg.startTime ≤ t ∧ t < seg.startTime + 3/10

instance (seg : DubbingSegment) (t : ℚ) : Decidable (InWindow seg t) :=
  instDecidableAnd

/-- One iteration of the trigger loop of `handleTimeUpdate`
(lines 172-180): `p.1` is the `forEach` index, `p.2` the segment.  When
`time ∈ [startTime, startTime + 0.3)` and the index is not yet in
`triggeredSegmentsRef`, add it and call `playSegmentAudio`. -/
def triggerStep (buffers : Nat → Bool) (t : ℚ) (s : EngineState)
    (p : Nat × DubbingSegment) : EngineState :=
  if InWindow p.2 t then
    if p.1 ∈ s.triggered then s
    else playSegmentAudio buffers p.1 { s with triggered := p.1 :: s.triggered }
  else s

/-- Phase 1 of `handleTimeUpdate`: `segments.forEach((seg, index) => ...)`. -/
def triggerPhase (segs : List DubbingSegment) (buffers : Nat → Bool)
    (t : ℚ) (s : EngineState) : EngineState :=
  segs.enum.foldl (triggerStep buffers t) s

/-- Phase 2 of `handleTimeUpdate` (lines 182-194), the smart pause: if a
tracked segment exists and the next segment exists, with
`timeToNext = nextSeg.startTime - time`, pause the video when
`timeToNext ≤ 0.2 ∧ timeToNext > -0.5` and neither
`isVideoPausedForDubRef` nor the video element is already paused. -/
def smartPausePhase (segs : List DubbingSegment) (t : ℚ)
    (s : EngineState) : EngineState :=
  match s.activeSegmentIndex with
  | none => s
  | some i =>
    match segs.get? (i + 1) with
    | none => s
    | some nextSeg =>
      if nextSeg.startTime - t ≤ 1/5 ∧ -(1/2) < nextSeg.startTime - t then
        if s.isVideoPausedForDub = false ∧ s.videoPaused = false then
          { s with isVideoPausedForDub := true, videoPaused := true }
        else s
      else s

/-- The `endTime`/`time < endTime` check of the caption reduce body:
`p.1` is the position of `p.2` in `segs` (the JS `segments.indexOf(current)`
under reference semantics), `nextOne = segments[p.1 + 1]`,
`endTime = nextOne ? nextOne.startTime : current.startTime + 5`. -/
def captionCheck (segs : List DubbingSegment) (t : ℚ)
    (prev : Option DubbingSegment) (p : Nat × DubbingSegment) :
    Option DubbingSegment :=
  match segs.get? (p.1 + 1) with
  | some nextOne => if t < nextOne.startTime then some p.2 else prev
  | none => if t < p.2.startTime + 5 then some p.2 else prev

/-- One step of the caption `reduce` (lines 196-206): enter the body only
when `time ≥ current.startTime` and (`prev` is absent or
`current.startTime > prev.startTime`); otherwise keep `prev`. -/
def captionStep (segs : List DubbingSegment) (t : ℚ)
    (prev : Option DubbingSegment) (p : Nat × DubbingSegment) :
    Option DubbingSegment :=
  if p.2.startTime ≤ t then
    match prev with
    | none => captionCheck segs t none p
    | some q =>
      if q.startTime < p.2.startTime then captionCheck segs t (some q) p
      else some q
  else prev

/-- The caption `reduce` over the segment list (accumulator starts at
`null`). -/
def computeActiveCaption (segs : List DubbingSegment) (t : ℚ) :
    Option DubbingSegment :=
  segs.enum.foldl (captionStep segs t) none

/-- `setCurrentCaption(activeSegment ? activeSegment.text : null)`. -/
def computeCaption (segs : List DubbingSegment) (t : ℚ) : Option String :=
  (computeActiveCaption segs t).map DubbingSegment.text

/-- Phase 3 of `handleTimeUpdate`. -/
def captionPhase (segs : List DubbingSegment) (t : ℚ)
    (s : EngineState) : EngineState :=
  { s with currentCaption := computeCaption segs t }

/-- `handleTimeUpdate` (lines 167-213): record the time, then trigger
audio, then smart pause, then captions.  (The export-progress update of
lines 210-212 touches only the progress percentage and is not modelled.) -/
def handleTimeUpdate (segs : List DubbingSegment) (buffers : Nat → Bool)
    (t : ℚ) (s : EngineState) : EngineState :=
  captionPhase segs t
    (smartPausePhase segs t
      (triggerPhase segs buffers t { s with currentTime := t }))

/-- `source.onended` (lines 152-162): drop the source from
`activeSourcesRef`; if it was the tracked segment, clear
`activeSegmentIndexRef`, and when the engine was holding the video for
this narration and play intent is still on, clear the hold and resume
the video. -/
def onVoiceEnded (v : Voice) (s : EngineState) : EngineState :=
  if s.activeSegmentIndex = some v.index then
    if s.isVideoPausedForDub ∧ s.isPlaying then
      { s with activeSources := s.activeSources.filter (fun w => w.id != v.id),
               activeSegmentIndex := none,
               isVideoPausedForDub := false, videoPaused := false }
    else
      { s with activeSources := s.activeSources.filter (fun w => w.id != v.id),
               activeSegmentIndex := none }
  else
    { s with activeSources := s.activeSources.filter (fun w => w.id != v.id) }

/-- `handleSeek` (lines 215-224): set the video position, clear
`triggeredSegmentsRef`, `stopAllAudio()`, and clear the stored recording
(`setRecordedBlob(null)`, variant A). -/
def handleSeek (t : ℚ) (s : EngineState) : EngineState :=
  { stopAllAudio { s with currentTime := t, triggered := [] } with
    recordedBlob := none }

/-- The play/pause toggle (`togglePlay`, lines 94-103) together with the
`useEffect` on `isPlaying` (lines 105-120): turning play off pauses the
video and runs `stopAllAudio`; turning play on plays the video unless the
engine is holding for narration. -/
def togglePlay (s : EngineState) : EngineState :=
  if s.isPlaying then
    stopAllAudio { s with isPlaying := false, videoPaused := true }
  else
    if s.isVideoPausedForDub = false then
      { s with isPlaying := true, videoPaused := false }
    else
      { s with isPlaying := true }

/-- The playback-session events whose interleavings the invariants range
over: timeline ticks, voice completions, seeks, play/pause toggles. -/
inductive PlayerEvent where
  | tick (t : ℚ)
  | voiceEnded (v : Voice)
  | seek (t : ℚ)
  | toggle
deriving DecidableEq

/-- Event dispatch. -/
def stepEvent (segs : List DubbingSegment) (buffers : Nat → Bool) :
    PlayerEvent → EngineState → EngineState
  | .tick t, s => handleTimeUpdate segs buffers t s
  | .voiceEnded v, s => onVoiceEnded v s
  | .seek t, s => handleSeek t s
  | .toggle, s => togglePlay s

/-- Run a sequence of session events. -/
def runEvents (segs : List DubbingSegment) (buffers : Nat → Bool)
    (evs : List PlayerEvent) (s : EngineState) : EngineState :=
  evs.foldl (fun s e => stepEvent segs buffers e s) s

/-- Run a sequence of bare ticks (one playback pass, no seek). -/
def runTicks (segs : List DubbingSegment) (buffers : Nat → Bool)
    (ts : List ℚ) (s : EngineState) : EngineState :=
  ts.foldl (fun s t => handleTimeUpdate segs buffers t s) s

/-- The scenario segment list of the spec:
`[{0.0,"Hi","a"},{2.0,"Bye","b"}]`. -/
def demoSegs : List DubbingSegment := [⟨0, "Hi", "a"⟩, ⟨2, "Bye", "b"⟩]

/-- The scenario tick times `0.05, 0.25, 1.9, 2.05, 2.3`. -/
def demoTicks : List ℚ := [1/20, 1/4, 19/10, 41/20, 23/10]

/-! ## Export paths -/

/-- Where an exception can surface inside `handleStartExport`'s `try`
block (variant A, lines 274-323): creating the capture streams
(`canvas.captureStream`), constructing the `MediaRecorder`, or the
awaited `video.play()` (which runs after `recorder.start()`). -/
inductive ExportErrA where
  | captureStream
  | recorderCtor
  | playFail
deriving DecidableEq

/-- `handleStartExport` (variant A, lines 228-324), start phase only.
Effects before the `try`: reset the stored blob, set the exporting flags
and play intent, clear the triggered set, stop all audio, start the
canvas draw loop.  In the `try`: build streams, construct and start the
recorder, reset the video to 0 and play.  The `catch` (lines 317-323)
clears both exporting flags and cancels the draw loop — it does not stop
a recorder that `recorder.start()` already started, nor reset
`isPlaying`. -/
def handleStartExport (err : Option ExportErrA) (s : EngineState) :
    EngineState :=
  let s0 := stopAllAudio
    { s with recordedBlob := none, isExporting := true,
             isExportingRef := true, isPlaying := true, triggered := [] }
  let s1 := { s0 with drawLoop := true }
  match err with
  | none =>
    { s1 with recorderActive := true, currentTime := 0, videoPaused := false }
  | some .captureStream =>
    { s1 with isExporting := false, isExportingRef := false, drawLoop := false }
  | some .recorderCtor =>
    { s1 with isExporting := false, isExportingRef := false, drawLoop := false }
  | some .playFail =>
    { s1 with recorderActive := true, currentTime := 0,
              isExporting := false, isExportingRef := false, drawLoop := false }

/-- Where an exception can surface inside `handleExport` (variant B,
lines 716-800).  `captureUnsupported` (no `captureStream` /
`mozCaptureStream` on the element) and `recorderCtor` (the
`new MediaRecorder, recorder.start` lines) are NOT inside any
`try`/`catch` in variant B: the async function just rejects there.  Only
`await video.play()` is guarded (lines 787-792). -/
inductive ExportErrB where
  | captureUnsupported
  | recorderCtor
  | playFail
deriving DecidableEq

/-- `handleExport` (variant B, lines 716-800), start phase.  Effects
before capture: exporting flag and play intent on, triggered set cleared,
audio stopped.  An uncaught exception (capture unsupported, recorder
construction) leaves exactly that state behind; the guarded
`video.play()` failure additionally leaves a started recorder and only
clears `isExporting`. -/
def handleExport (err : Option ExportErrB) (s : EngineState) :
    EngineState :=
  let s0 := stopAllAudio
    { s with isExporting := true, isPlaying := true, triggered := [] }
  match err with
  | some .captureUnsupported => s0
  | some .recorderCtor => s0
  | some .playFail =>
    { s0 with recorderActive := true, currentTime := 0, isExporting := false }
  | none =>
    { s0 with recorderActive := true, currentTime := 0, videoPaused := false }

/-! ## MIME negotiation and file extension -/

/-- The preference list of `getSupportedMimeType` (variant B,
lines 727-738). -/
def mimeCandidates : List String :=
  ["video/mp4;codecs=avc1,mp4a.40.2",
   "video/mp4",
   "video/webm;codecs=vp9,opus",
   "video/webm"]

/-- The `for (const type of types) if (isTypeSupported(type)) return type`
loop with the `'video/webm'` fallback. -/
def firstSupported (sup : String → Bool) : List String → String
  | [] => "video/webm"
  | t :: rest => if sup t then t else firstSupported sup rest

/-- `getSupportedMimeType` (variant B, lines 727-738):
`sup` is the runtime's `MediaRecorder.isTypeSupported`. -/
def getSupportedMimeType (sup : String → Bool) : String :=
  firstSupported sup mimeCandidates

/-- The MIME selection of `handleStartExport` (variant A, lines 264-272):
`'video/mp4'` if supported, else `'video/webm;codecs=vp9'` if supported,
else the initial `'video/webm'`.  (The surrounding
`typeof isTypeSupported === 'function'` guard is assumed satisfied.) -/
def chooseMimeStartExport (sup : String → Bool) : String :=
  if sup "video/mp4" then "video/mp4"
  else if sup "video/webm;codecs=vp9" then "video/webm;codecs=vp9"
  else "video/webm"

/-- Substring scan used to model JS `String.prototype.includes`. -/
def containsAux (p : List Char) : List Char → Bool
  | [] => p.isEmpty
  | c :: rest => p.isPrefixOf (c :: rest) || containsAux p rest

/-- `s.includes(pat)` for strings. -/
def strIncludes (s pat : String) : Bool :=
  pat.isEmpty || containsAux pat.toList s.toList

/-- `mimeType.includes('mp4') ? 'mp4' : 'webm'` — the extension rule of
`handleShareOrSave` (variant A, line 332, applied to the blob's declared
type) and of `handleExport` (variant B, line 741, applied to the chosen
MIME type). -/
def extForMime (m : String) : String :=
  if strIncludes m "mp4" then "mp4" else "webm"

/-! ## Specification-side definitions

These follow the spec's wording (not the source) and are only used to
compare against the embedded code. -/

/-- Modelled from the spec (§4.6 wording): among the enumerated segments,
the one with the largest `startTime ≤ t` (earliest position wins a tie),
with its position. -/
def specPick (t : ℚ) : List (Nat × DubbingSegment) → Option (Nat × DubbingSegment)
  | [] => none
  | p :: ps =>
    match specPick t ps with
    | none => if p.2.startTime ≤ t then some p else none
    | some q =>
      if p.2.startTime ≤ t ∧ q.2.startTime < p.2.startTime then some p
      else some q

/-- Modelled from the spec (§4.6): `resolve(currentTime, segments)` —
pick the segment with the largest `startTime ≤ t`, then test
`t < effectiveEnd` where `effectiveEnd` is the next segment's `startTime`
if one follows, else the picked segment's `startTime + 5`. -/
def specCaption (t : ℚ) (segs : List DubbingSegment) : Option String :=
  match specPick t segs.enum with
  | none => none
  | some p =>
    match segs.get? (p.1 + 1) with
    | some nextSeg => if t < nextSeg.startTime then some p.2.text else none
    | none => if t < p.2.startTime + 5 then some p.2.text else none

/-- Specification of the trigger loop's effect on the ghost log: the
indices started by one tick at time `t`, given the triggered set `trig`
at the start of the tick, in segment order. -/
def newStarts (buffers : Nat → Bool) (t : ℚ) (trig : List Nat) :
    List (Nat × DubbingSegment) → List Nat
  | [] => []
  | p :: ps =>
    if InWindow p.2 t then
      if p.1 ∈ trig then newStarts buffers t trig ps
      else if buffers p.1 then p.1 :: newStarts buffers t (p.1 :: trig) ps
      else newStarts buffers t (p.1 :: trig) ps
    else newStarts buffers t trig ps

/-- The claim's reading of the container negotiation: `c` is the first
entry of `ts` accepted by `sup`, or the `'video/webm'` fallback when
none is. -/
def IsFirstSupportedFrom (sup : String → Bool) (ts : List String)
    (c : String) : Prop :=
  (∃ i, ts.get? i = some c ∧ sup c = true ∧
    ∀ j, j < i → ∀ u, ts.get? j = some u → sup u = false) ∨
  ((∀ u ∈ ts, sup u = false) ∧ c = "video/webm")

/-! ## Auxiliary notions used by the statements -/

/-- The inductive invariant of the session state machine: the hold flag
implies a tracked segment and play intent, and absent play intent the
video element is paused with no hold. -/
def Inv (s : EngineState) : Prop :=
  (s.isVideoPausedForDub = true →
    s.activeSegmentIndex.isSome = true ∧ s.isPlaying = true) ∧
  (s.isPlaying = false →
    s.videoPaused = true ∧ s.isVideoPausedForDub = false)

/-- Every buffer decoded successfully. -/
def allBuffers : Nat → Bool := fun _ => true

/-- Scenario state after the tick at `t = 0.05` of a normal playback pass:
segment 0 triggered and tracked, no hold. -/
def afterFirstTick : EngineState :=
  runTicks demoSegs allBuffers [1/20] playingState

/-- A concrete event interleaving that reaches a holding state: press
play, tick inside segment 0's window, tick at `t = 1.85` (within 0.2 s of
segment 1's cue). -/
def demoEvents : List PlayerEvent :=
  [.toggle, .tick (1/20), .tick (37/20)]

/-! ## Enumeration helpers -/

lemma fst_le_of_mem_enumFrom {α : Type} :
    ∀ (l : List α) (n : Nat) (p : Nat × α), p ∈ l.enumFrom n → n ≤ p.1 := by
  intro l
  induction l with
  | nil => intro n p h; simp [List.enumFrom] at h
  | cons a l ih =>
    intro n p h
    rcases List.mem_cons.mp h with h1 | h2
    · subst h1; exact le_refl n
    · exact Nat.le_of_succ_le (ih (n + 1) p h2)

lemma mem_enumFrom_iff_get {α : Type} :
    ∀ (l : List α) (n k : Nat) (x : α),
      (n + k, x) ∈ l.enumFrom n ↔ l.get? k = some x := by
  intro l
  induction l with
  | nil => intro n k x; simp [List.enumFrom]
  | cons a l ih =>
    intro n k x
    cases k with
    | zero =>
      constructor
      · intro h
        rcases List.mem_cons.mp h with h1 | h2
        · simp at h1; simp [h1]
        · have := fst_le_of_mem_enumFrom l (n + 1) (n + 0, x) h2
          omega
      · intro h
        simp at h
        exact List.mem_cons.mpr (Or.inl (by simp [h]))
    | succ k =>
      have heq : n + (k + 1) = (n + 1) + k := by omega
      constructor
      · intro h
        rcases List.mem_cons.mp h with h1 | h2
        · exfalso
          have hfst : n + (k + 1) = n := congrArg Prod.fst h1
          omega
        · rw [heq] at h2
          exact (ih (n + 1) k x).mp h2
      · intro h
        refine List.mem_cons.mpr (Or.inr ?_)
        rw [heq]
        exact (ih (n + 1) k x).mpr h

lemma mem_enum_iff_get {α : Type} (l : List α) (p : Nat × α) :
    p ∈ l.enum ↔ l.get? p.1 = some p.2 := by
  have h := mem_enumFrom_iff_get l 0 p.1 p.2
  simpa [List.enum] using h

lemma snd_mem_of_mem_enumFrom {α : Type} (l : List α) (n : Nat)
    (p : Nat × α) (h : p ∈ l.enumFrom n) : p.2 ∈ l := by
  have hle := fst_le_of_mem_enumFrom l n p h
  have hk : (n + (p.1 - n), p.2) ∈ l.enumFrom n := by
    have : n + (p.1 - n) = p.1 := by omega
    rw [this]
    exact h
  exact List.get?_mem ((mem_enumFrom_iff_get l n (p.1 - n) p.2).mp hk)

/-! ## The trigger loop: fold characterization -/

lemma triggerStep_flags (b : Nat → Bool) (t : ℚ) (s : EngineState)
    (p : Nat × DubbingSegment) :
    (triggerStep b t s p).isPlaying = s.isPlaying ∧
    (triggerStep b t s p).videoPaused = s.videoPaused ∧
    (triggerStep b t s p).isVideoPausedForDub = s.isVideoPausedForDub ∧
    (triggerStep b t s p).currentTime = s.currentTime ∧
    (triggerStep b t s p).recordedBlob = s.recordedBlob := by
  unfold triggerStep playSegmentAudio
  split_ifs <;> simp

lemma foldl_triggerStep_flags (b : Nat → Bool) (t : ℚ) :
    ∀ (ps : List (Nat × DubbingSegment)) (s : EngineState),
      (ps.foldl (triggerStep b t) s).isPlaying = s.isPlaying ∧
      (ps.foldl (triggerStep b t) s).videoPaused = s.videoPaused ∧
      (ps.foldl (triggerStep b t) s).isVideoPausedForDub = s.isVideoPausedForDub := by
  intro ps
  induction ps with
  | nil => intro s; simp
  | cons p ps ih =>
    intro s
    have hstep := triggerStep_flags b t s p
    have hh := ih (triggerStep b t s p)
    simp only [List.foldl_cons]
    exact ⟨hh.1.trans hstep.1, hh.2.1.trans hstep.2.1, hh.2.2.trans hstep.2.2.1⟩

lemma triggerStep_active (b : Nat → Bool) (t : ℚ) (s : EngineState)
    (p : Nat × DubbingSegment) (h : s.activeSegmentIndex.isSome = true) :
    (triggerStep b t s p).activeSegmentIndex.isSome = true := by
  unfold triggerStep playSegmentAudio
  split_ifs <;> simp_all

lemma foldl_triggerStep_active (b : Nat → Bool) (t : ℚ) :
    ∀ (ps : List (Nat × DubbingSegment)) (s : EngineState),
      s.activeSegmentIndex.isSome = true →
      (ps.foldl (triggerStep b t) s).activeSegmentIndex.isSome = true := by
  intro ps
  induction ps with
  | nil => intro s h; simpa using h
  | cons p ps ih =>
    intro s h
    simp only [List.foldl_cons]
    exact ih _ (triggerStep_active b t s p h)

lemma foldl_triggerStep_startedLog (b : Nat → Bool) (t : ℚ) :
    ∀ (ps : List (Nat × DubbingSegment)) (s : EngineState),
      (ps.foldl (triggerStep b t) s).startedLog =
        s.startedLog ++ newStarts b t s.triggered ps := by
  intro ps
  induction ps with
  | nil => intro s; simp [newStarts]
  | cons p ps ih =>
    intro s
    simp only [List.foldl_cons]
    by_cases hw : InWindow p.2 t
    · by_cases hm : p.1 ∈ s.triggered
      · rw [show triggerStep b t s p = s from by simp [triggerStep, hw, hm]]
        rw [ih]
        simp [newStarts, hw, hm]
      · by_cases hb : b p.1
        · rw [show triggerStep b t s p =
              { s with triggered := p.1 :: s.triggered,
                       activeSources := s.activeSources ++ [⟨s.nextVoiceId, p.1⟩],
                       nextVoiceId := s.nextVoiceId + 1,
                       activeSegmentIndex := some p.1,
                       startedLog := s.startedLog ++ [p.1] } from by
            simp [triggerStep, hw, hm, playSegmentAudio, hb]]
          rw [ih]
          simp [newStarts, hw, hm, hb]
        · rw [show triggerStep b t s p = { s with triggered := p.1 :: s.triggered } from by
            simp [triggerStep, hw, hm, playSegmentAudio, hb]]
          rw [ih]
          simp [newStarts, hw, hm, hb]
    · rw [show triggerStep b t s p = s from by simp [triggerStep, hw]]
      rw [ih]
      simp [newStarts, hw]

lemma mem_triggered_foldl (b : Nat → Bool) (t : ℚ) :
    ∀ (ps : List (Nat × DubbingSegment)) (s : EngineState) (i : Nat),
      (i ∈ (ps.foldl (triggerStep b t) s).triggered ↔
        i ∈ s.triggered ∨ ∃ p ∈ ps, p.1 = i ∧ InWindow p.2 t) := by
  intro ps
  induction ps with
  | nil => intro s i; simp
  | cons p ps ih =>
    intro s i
    simp only [List.foldl_cons]
    by_cases hw : InWindow p.2 t
    · by_cases hm : p.1 ∈ s.triggered
      · rw [show triggerStep b t s p = s from by simp [triggerStep, hw, hm]]
        rw [ih]
        constructor
        · rintro (h | ⟨q, hq, hqi, hqw⟩)
          · exact Or.inl h
          · exact Or.inr ⟨q, List.mem_cons_of_mem p hq, hqi, hqw⟩
        · rintro (h | ⟨q, hq, hqi, hqw⟩)
          · exact Or.inl h
          · rcases List.mem_cons.mp hq with h1 | h2
            · subst h1
              exact Or.inl (hqi ▸ hm)
            · exact Or.inr ⟨q, h2, hqi, hqw⟩
      · have htrig : (triggerStep b t s p).triggered = p.1 :: s.triggered := by
          unfold triggerStep playSegmentAudio
          simp only [hw, if_true, hm, if_false]
          split_ifs <;> simp
        rw [ih]
        rw [htrig]
        constructor
        · rintro (h | ⟨q, hq, hqi, hqw⟩)
          · rcases List.mem_cons.mp h with h1 | h2
            · exact Or.inr ⟨p, List.mem_cons_self p ps, h1.symm, hw⟩
            · exact Or.inl h2
          · exact Or.inr ⟨q, List.mem_cons_of_mem p hq, hqi, hqw⟩
        · rintro (h | ⟨q, hq, hqi, hqw⟩)
          · exact Or.inl (List.mem_cons_of_mem p.1 h)
          · rcases List.mem_cons.mp hq with h1 | h2
            · subst h1
              exact Or.inl (List.mem_cons.mpr (Or.inl hqi.symm))
            · exact Or.inr ⟨q, h2, hqi, hqw⟩
    · rw [show triggerStep b t s p = s from by simp [triggerStep, hw]]
      rw [ih]
      constructor
      · rintro (h | ⟨q, hq, hqi, hqw⟩)
        · exact Or.inl h
        · exact Or.inr ⟨q, List.mem_cons_of_mem p hq, hqi, hqw⟩
      · rintro (h | ⟨q, hq, hqi, hqw⟩)
        · exact Or.inl h
        · rcases List.mem_cons.mp hq with h1 | h2
          · subst h1
            exact absurd hqw hw
          · exact Or.inr ⟨q, h2, hqi, hqw⟩

lemma mem_newStarts (b : Nat → Bool) (t : ℚ) :
    ∀ (ps : List (Nat × DubbingSegment)) (trig : List Nat) (i : Nat),
      (i ∈ newStarts b t trig ps ↔
        b i = true ∧ i ∉ trig ∧ ∃ p ∈ ps, p.1 = i ∧ InWindow p.2 t) := by
  intro ps
  induction ps with
  | nil => intro trig i; simp [newStarts]
  | cons p ps ih =>
    intro trig i
    by_cases hw : InWindow p.2 t
    · by_cases hm : p.1 ∈ trig
      · rw [show newStarts b t trig (p :: ps) = newStarts b t trig ps from by
          simp [newStarts, hw, hm]]
        rw [ih]
        constructor
        · rintro ⟨hb, hnt, q, hq, hqi, hqw⟩
          exact ⟨hb, hnt, q, List.mem_cons_of_mem p hq, hqi, hqw⟩
        · rintro ⟨hb, hnt, q, hq, hqi, hqw⟩
          rcases List.mem_cons.mp hq with h1 | h2
          · subst h1
            exact absurd (hqi ▸ hm) hnt
          · exact ⟨hb, hnt, q, h2, hqi, hqw⟩
      · by_cases hb : b p.1
        · rw [show newStarts b t trig (p :: ps) =
              p.1 :: newStarts b t (p.1 :: trig) ps from by
            simp [newStarts, hw, hm, hb]]
          by_cases hpi : p.1 = i
          · subst hpi
            simp only [List.mem_cons, true_or, true_iff]
            exact ⟨hb, hm, p, Or.inl rfl, rfl, hw⟩
          · rw [List.mem_cons]
            rw [ih]
            constructor
            · rintro (h | ⟨hbi, hnt, q, hq, hqi, hqw⟩)
              · exact absurd h.symm hpi
              · refine ⟨hbi, fun hc => hnt (List.mem_cons_of_mem _ hc), q,
                  List.mem_cons_of_mem p hq, hqi, hqw⟩
            · rintro ⟨hbi, hnt, q, hq, hqi, hqw⟩
              rcases List.mem_cons.mp hq with h1 | h2
              · subst h1
                exact absurd hqi hpi
              · refine Or.inr ⟨hbi, ?_, q, h2, hqi, hqw⟩
                intro hc
                rcases List.mem_cons.mp hc with h3 | h4
                · exact hpi h3.symm
                · exact hnt h4
        · rw [show newStarts b t trig (p :: ps) =
              newStarts b t (p.1 :: trig) ps from by
            simp [newStarts, hw, hm, hb]]
          rw [ih]
          constructor
          · rintro ⟨hbi, hnt, q, hq, hqi, hqw⟩
            refine ⟨hbi, fun hc => hnt (List.mem_cons_of_mem _ hc), q,
              List.mem_cons_of_mem p hq, hqi, hqw⟩
          · rintro ⟨hbi, hnt, q, hq, hqi, hqw⟩
            rcases List.mem_cons.mp hq with h1 | h2
            · subst h1
              rw [hqi] at hb
              exact absurd hbi hb
            · refine ⟨hbi, ?_, q, h2, hqi, hqw⟩
              intro hc
              rcases List.mem_cons.mp hc with h3 | h4
              · exact hb (h3 ▸ hbi)
              · exact hnt h4
    · rw [show newStarts b t trig (p :: ps) = newStarts b t trig ps from by
        simp [newStarts, hw]]
      rw [ih]
      constructor
      · rintro ⟨hb, hnt, q, hq, hqi, hqw⟩
        exact ⟨hb, hnt, q, List.mem_cons_of_mem p hq, hqi, hqw⟩
      · rintro ⟨hb, hnt, q, hq, hqi, hqw⟩
        rcases List.mem_cons.mp hq with h1 | h2
        · subst h1
          exact absurd hqw hw
        · exact ⟨hb, hnt, q, h2, hqi, hqw⟩

lemma not_mem_newStarts (b : Nat → Bool) (t : ℚ)
    (ps : List (Nat × DubbingSegment)) (trig : List Nat) (i : Nat)
    (h : i ∈ trig) : i ∉ newStarts b t trig ps := by
  intro hmem
  exact ((mem_newStarts b t ps trig i).mp hmem).2.1 h

lemma count_newStarts_le_one (b : Nat → Bool) (t : ℚ) :
    ∀ (ps : List (Nat × DubbingSegment)) (trig : List Nat) (i : Nat),
      (newStarts b t trig ps).count i ≤ 1 := by
  intro ps
  induction ps with
  | nil => intro trig i; simp [newStarts]
  | cons p ps ih =>
    intro trig i
    by_cases hw : InWindow p.2 t
    · by_cases hm : p.1 ∈ trig
      · rw [show newStarts b t trig (p :: ps) = newStarts b t trig ps from by
          simp [newStarts, hw, hm]]
        exact ih trig i
      · by_cases hb : b p.1
        · rw [show newStarts b t trig (p :: ps) =
              p.1 :: newStarts b t (p.1 :: trig) ps from by
            simp [newStarts, hw, hm, hb]]
          by_cases hpi : p.1 = i
          · subst hpi
            have hz : (newStarts b t (p.1 :: trig) ps).count p.1 = 0 :=
              List.count_eq_zero.mpr
                (not_mem_newStarts b t ps (p.1 :: trig) p.1
                  (List.mem_cons_self p.1 trig))
            simp [List.count_cons, hz]
          · have := ih (p.1 :: trig) i
            simp [List.count_cons, hpi]
            omega
        · rw [show newStarts b t trig (p :: ps) =
              newStarts b t (p.1 :: trig) ps from by
            simp [newStarts, hw, hm, hb]]
          exact ih (p.1 :: trig) i
    · rw [show newStarts b t trig (p :: ps) = newStarts b t trig ps from by
        simp [newStarts, hw]]
      exact ih trig i

lemma triggerPhase_flags (segs : List DubbingSegment) (b : Nat → Bool)
    (t : ℚ) (s : EngineState) :
    (triggerPhase segs b t s).isPlaying = s.isPlaying ∧
    (triggerPhase segs b t s).videoPaused = s.videoPaused ∧
    (triggerPhase segs b t s).isVideoPausedForDub = s.isVideoPausedForDub :=
  foldl_triggerStep_flags b t segs.enum s

lemma triggerPhase_active (segs : List DubbingSegment) (b : Nat → Bool)
    (t : ℚ) (s : EngineState) (h : s.activeSegmentIndex.isSome = true) :
    (triggerPhase segs b t s).activeSegmentIndex.isSome = true :=
  foldl_triggerStep_active b t segs.enum s h

lemma triggerPhase_startedLog (segs : List DubbingSegment) (b : Nat → Bool)
    (t : ℚ) (s : EngineState) :
    (triggerPhase segs b t s).startedLog =
      s.startedLog ++ newStarts b t s.triggered segs.enum :=
  foldl_triggerStep_startedLog b t segs.enum s

lemma triggerPhase_mem_triggered (segs : List DubbingSegment)
    (b : Nat → Bool) (t : ℚ) (s : EngineState) (i : Nat) :
    (i ∈ (triggerPhase segs b t s).triggered ↔
      i ∈ s.triggered ∨ ∃ p ∈ segs.enum, p.1 = i ∧ InWindow p.2 t) :=
  mem_triggered_foldl b t segs.enum s i

/-! ## Smart-pause and caption phase lemmas -/

lemma smartPausePhase_fields (segs : List DubbingSegment) (t : ℚ)
    (s : EngineState) :
    (smartPausePhase segs t s).activeSegmentIndex = s.activeSegmentIndex ∧
    (smartPausePhase segs t s).isPlaying = s.isPlaying ∧
    (smartPausePhase segs t s).triggered = s.triggered ∧
    (smartPausePhase segs t s).startedLog = s.startedLog ∧
    (smartPausePhase segs t s).activeSources = s.activeSources ∧
    (smartPausePhase segs t s).recordedBlob = s.recordedBlob := by
  unfold smartPausePhase
  split
  · exact ⟨rfl, rfl, rfl, rfl, rfl, rfl⟩
  · split
    · exact ⟨rfl, rfl, rfl, rfl, rfl, rfl⟩
    · split_ifs <;> exact ⟨rfl, rfl, rfl, rfl, rfl, rfl⟩

lemma smartPausePhase_hold_mono (segs : List DubbingSegment) (t : ℚ)
    (s : EngineState) (h : s.isVideoPausedForDub = true) :
    (smartPausePhase segs t s).isVideoPausedForDub = true := by
  unfold smartPausePhase
  split
  · exact h
  · split
    · exact h
    · split_ifs with h1 h2
      · rfl
      · exact h
      · exact h

lemma smartPausePhase_of_videoPaused (segs : List DubbingSegment) (t : ℚ)
    (s : EngineState) (h : s.videoPaused = true) :
    (smartPausePhase segs t s).videoPaused = true ∧
    (smartPausePhase segs t s).isVideoPausedForDub = s.isVideoPausedForDub := by
  unfold smartPausePhase
  split
  · exact ⟨h, rfl⟩
  · split
    · exact ⟨h, rfl⟩
    · split_ifs with h1 h2
      · rw [h2.2] at h
        simp at h
      · exact ⟨h, rfl⟩
      · exact ⟨h, rfl⟩

/-- The smart-pause transition condition, exactly as the code checks it,
and its effect on the video element. -/
lemma smartPausePhase_fires_iff (segs : List DubbingSegment) (t : ℚ)
    (s : EngineState) (hfree : s.isVideoPausedForDub = false) :
    (((smartPausePhase segs t s).isVideoPausedForDub = true ↔
      ∃ i nextSeg, s.activeSegmentIndex = some i ∧
        segs.get? (i + 1) = some nextSeg ∧
        nextSeg.startTime - t ≤ 1/5 ∧ -(1/2) < nextSeg.startTime - t ∧
        s.videoPaused = false) ∧
     ((smartPausePhase segs t s).isVideoPausedForDub = true →
       (smartPausePhase segs t s).videoPaused = true)) := by
  unfold smartPausePhase
  split
  · rename_i heq
    refine ⟨⟨?_, ?_⟩, ?_⟩
    · intro h
      rw [hfree] at h
      simp at h
    · rintro ⟨j, nseg, hj, _⟩
      rw [heq] at hj
      simp at hj
    · intro h
      rw [hfree] at h
      simp at h
  · rename_i i heq
    split
    · rename_i hn
      refine ⟨⟨?_, ?_⟩, ?_⟩
      · intro h
        rw [hfree] at h
        simp at h
      · rintro ⟨j, nseg, hj, hnj, _⟩
        rw [heq] at hj
        have hji : i = j := by injection hj
        subst hji
        rw [hn] at hnj
        simp at hnj
      · intro h
        rw [hfree] at h
        simp at h
    · rename_i nextSeg hn
      split_ifs with h1 h2
      · refine ⟨⟨?_, ?_⟩, ?_⟩
        · intro _
          exact ⟨i, nextSeg, heq, hn, h1.1, h1.2, h2.2⟩
        · intro _
          rfl
        · intro _
          rfl
      · refine ⟨⟨?_, ?_⟩, ?_⟩
        · intro h
          rw [hfree] at h
          simp at h
        · rintro ⟨j, nseg, hj, hnj, hd1, hd2, hvp⟩
          exact absurd ⟨hfree, hvp⟩ h2
        · intro h
          rw [hfree] at h
          simp at h
      · refine ⟨⟨?_, ?_⟩, ?_⟩
        · intro h
          rw [hfree] at h
          simp at h
        · rintro ⟨j, nseg, hj, hnj, hd1, hd2, hvp⟩
          rw [heq] at hj
          have hji : i = j := by injection hj
          subst hji
          rw [hn] at hnj
          injection hnj with hnn
          subst hnn
          exact absurd ⟨hd1, hd2⟩ h1
        · intro h
          rw [hfree] at h
          simp at h

lemma smartPausePhase_hold_source (segs : List DubbingSegment) (t : ℚ)
    (s : EngineState)
    (h : (smartPausePhase segs t s).isVideoPausedForDub = true) :
    s.isVideoPausedForDub = true ∨
      (s.activeSegmentIndex.isSome = true ∧ s.videoPaused = false) := by
  by_cases hh : s.isVideoPausedForDub = true
  · exact Or.inl hh
  · have hfree : s.isVideoPausedForDub = false := by
      simpa using hh
    rcases (smartPausePhase_fires_iff segs t s hfree).1.mp h with
      ⟨i, nseg, hci, _, _, _, hvp⟩
    exact Or.inr ⟨by simp [hci], hvp⟩

lemma captionPhase_fields (segs : List DubbingSegment) (t : ℚ)
    (s : EngineState) :
    (captionPhase segs t s).activeSegmentIndex = s.activeSegmentIndex ∧
    (captionPhase segs t s).isPlaying = s.isPlaying ∧
    (captionPhase segs t s).triggered = s.triggered ∧
    (captionPhase segs t s).startedLog = s.startedLog ∧
    (captionPhase segs t s).videoPaused = s.videoPaused ∧
    (captionPhase segs t s).isVideoPausedForDub = s.isVideoPausedForDub := by
  exact ⟨rfl, rfl, rfl, rfl, rfl, rfl⟩

/-! ## Single-tick lemmas -/

lemma handleTimeUpdate_startedLog (segs : List DubbingSegment)
    (b : Nat → Bool) (t : ℚ) (s : EngineState) :
    (handleTimeUpdate segs b t s).startedLog =
      s.startedLog ++ newStarts b t s.triggered segs.enum := by
  show (smartPausePhase segs t
      (triggerPhase segs b t { s with currentTime := t })).startedLog = _
  rw [(smartPausePhase_fields segs t
    (triggerPhase segs b t { s with currentTime := t })).2.2.2.1]
  exact triggerPhase_startedLog segs b t { s with currentTime := t }

lemma handleTimeUpdate_mem_triggered (segs : List DubbingSegment)
    (b : Nat → Bool) (t : ℚ) (s : EngineState) (i : Nat) :
    (i ∈ (handleTimeUpdate segs b t s).triggered ↔
      i ∈ s.triggered ∨ ∃ p ∈ segs.enum, p.1 = i ∧ InWindow p.2 t) := by
  show i ∈ (smartPausePhase segs t
      (triggerPhase segs b t { s with currentTime := t })).triggered ↔ _
  rw [(smartPausePhase_fields segs t
    (triggerPhase segs b t { s with currentTime := t })).2.2.1]
  exact triggerPhase_mem_triggered segs b t { s with currentTime := t } i

lemma handleTimeUpdate_isPlaying (segs : List DubbingSegment)
    (b : Nat → Bool) (t : ℚ) (s : EngineState) :
    (handleTimeUpdate segs b t s).isPlaying = s.isPlaying := by
  show (smartPausePhase segs t
      (triggerPhase segs b t { s with currentTime := t })).isPlaying = _
  rw [(smartPausePhase_fields segs t
    (triggerPhase segs b t { s with currentTime := t })).2.1]
  exact (triggerPhase_flags segs b t { s with currentTime := t }).1

lemma handleTimeUpdate_hold_true (segs : List DubbingSegment)
    (b : Nat → Bool) (t : ℚ) (s : EngineState)
    (h : s.isVideoPausedForDub = true) :
    (handleTimeUpdate segs b t s).isVideoPausedForDub = true := by
  show (smartPausePhase segs t
      (triggerPhase segs b t { s with currentTime := t })).isVideoPausedForDub = _
  refine smartPausePhase_hold_mono segs t _ ?_
  rw [(triggerPhase_flags segs b t { s with currentTime := t }).2.2]
  exact h

lemma handleTimeUpdate_active_isSome (segs : List DubbingSegment)
    (b : Nat → Bool) (t : ℚ) (s : EngineState)
    (h : s.activeSegmentIndex.isSome = true) :
    (handleTimeUpdate segs b t s).activeSegmentIndex.isSome = true := by
  show (smartPausePhase segs t
      (triggerPhase segs b t { s with currentTime := t })).activeSegmentIndex.isSome = _
  rw [(smartPausePhase_fields segs t
    (triggerPhase segs b t { s with currentTime := t })).1]
  exact foldl_triggerStep_active b t segs.enum { s with currentTime := t } h

/-! ## Invariant preservation -/

lemma inv_initState : Inv initState := by
  constructor
  · intro h
    simp [initState] at h
  · intro _
    exact ⟨rfl, rfl⟩

lemma inv_handleTimeUpdate (segs : List DubbingSegment) (b : Nat → Bool)
    (t : ℚ) (s : EngineState) (hInv : Inv s) :
    Inv (handleTimeUpdate segs b t s) := by
  have hm := triggerPhase_flags segs b t { s with currentTime := t }
  have hsp := smartPausePhase_fields segs t
    (triggerPhase segs b t { s with currentTime := t })
  constructor
  · intro hr
    have hr' : (smartPausePhase segs t
        (triggerPhase segs b t { s with currentTime := t })).isVideoPausedForDub
          = true := hr
    rcases smartPausePhase_hold_source segs t _ hr' with hold | ⟨hact, hvp⟩
    · rw [hm.2.2] at hold
      rcases hInv.1 hold with ⟨hactS, hplS⟩
      constructor
      · show (smartPausePhase segs t
          (triggerPhase segs b t { s with currentTime := t })).activeSegmentIndex.isSome = true
        rw [hsp.1]
        exact triggerPhase_active segs b t _ hactS
      · rw [handleTimeUpdate_isPlaying]
        exact hplS
    · constructor
      · show (smartPausePhase segs t
          (triggerPhase segs b t { s with currentTime := t })).activeSegmentIndex.isSome = true
        rw [hsp.1]
        exact hact
      · rw [handleTimeUpdate_isPlaying]
        rw [hm.2.1] at hvp
        cases hpl : s.isPlaying with
        | true => rfl
        | false =>
          exfalso
          have := (hInv.2 hpl).1
          rw [this] at hvp
          simp at hvp
  · intro hp
    rw [handleTimeUpdate_isPlaying] at hp
    rcases hInv.2 hp with ⟨hvpS, hholdS⟩
    have hmvp : (triggerPhase segs b t { s with currentTime := t }).videoPaused = true := by
      rw [hm.2.1]; exact hvpS
    have hsp2 := smartPausePhase_of_videoPaused segs t
      (triggerPhase segs b t { s with currentTime := t }) hmvp
    constructor
    · exact hsp2.1
    · show (smartPausePhase segs t
        (triggerPhase segs b t { s with currentTime := t })).isVideoPausedForDub = false
      rw [hsp2.2, hm.2.2]
      exact hholdS

lemma inv_onVoiceEnded (v : Voice) (s : EngineState) (hInv : Inv s) :
    Inv (onVoiceEnded v s) := by
  unfold onVoiceEnded
  split_ifs with h1 h2
  · constructor
    · intro hr
      simp at hr
    · intro hp
      have hp' : s.isPlaying = false := hp
      rw [h2.2] at hp'
      simp at hp'
  · constructor
    · intro hr
      exfalso
      have hhold : s.isVideoPausedForDub = true := hr
      exact h2 ⟨hhold, (hInv.1 hhold).2⟩
    · intro hp
      exact hInv.2 hp
  · constructor
    · intro hr
      exact hInv.1 hr
    · intro hp
      exact hInv.2 hp

lemma inv_handleSeek (t : ℚ) (s : EngineState) (hInv : Inv s) :
    Inv (handleSeek t s) := by
  constructor
  · intro hr
    simp [handleSeek, stopAllAudio] at hr
  · intro hp
    have hp' : s.isPlaying = false := hp
    exact ⟨(hInv.2 hp').1, rfl⟩

lemma inv_togglePlay (s : EngineState) (hInv : Inv s) :
    Inv (togglePlay s) := by
  unfold togglePlay
  split_ifs with h1 h2
  · constructor
    · intro hr
      simp [stopAllAudio] at hr
    · intro _
      exact ⟨rfl, rfl⟩
  · constructor
    · intro hr
      have : s.isVideoPausedForDub = true := hr
      rw [h2] at this
      exact absurd this (by simp)
    · intro hp
      simp at hp
  · exfalso
    have hhold : s.isVideoPausedForDub = true := by
      cases hh : s.isVideoPausedForDub with
      | true => rfl
      | false => exact absurd hh h2
    have := (hInv.1 hhold).2
    exact h1 (by simp [this])

lemma inv_stepEvent (segs : List DubbingSegment) (b : Nat → Bool)
    (e : PlayerEvent) (s : EngineState) (hInv : Inv s) :
    Inv (stepEvent segs b e s) := by
  cases e with
  | tick t => exact inv_handleTimeUpdate segs b t s hInv
  | voiceEnded v => exact inv_onVoiceEnded v s hInv
  | seek t => exact inv_handleSeek t s hInv
  | toggle => exact inv_togglePlay s hInv

lemma inv_runEvents (segs : List DubbingSegment) (b : Nat → Bool) :
    ∀ (evs : List PlayerEvent) (s : EngineState), Inv s →
      Inv (runEvents segs b evs s) := by
  intro evs
  induction evs with
  | nil => intro s h; exact h
  | cons e evs ih =>
    intro s h
    exact ih (stepEvent segs b e s) (inv_stepEvent segs b e s h)

/-! ## Whole-pass lemmas -/

lemma runTicks_nil (segs : List DubbingSegment) (b : Nat → Bool)
    (s : EngineState) : runTicks segs b [] s = s := rfl

lemma runTicks_cons (segs : List DubbingSegment) (b : Nat → Bool)
    (t : ℚ) (ts : List ℚ) (s : EngineState) :
    runTicks segs b (t :: ts) s =
      runTicks segs b ts (handleTimeUpdate segs b t s) := rfl

lemma exists_enum_window_iff (segs : List DubbingSegment) (i : Nat)
    (seg : DubbingSegment) (t : ℚ) (hseg : segs.get? i = some seg) :
    (∃ p ∈ segs.enum, p.1 = i ∧ InWindow p.2 t) ↔ InWindow seg t := by
  constructor
  · rintro ⟨p, hp, hpi, hpw⟩
    have hg := (mem_enum_iff_get segs p).mp hp
    rw [hpi, hseg] at hg
    injection hg with hg'
    rw [hg']
    exact hpw
  · intro hw
    exact ⟨(i, seg), (mem_enum_iff_get segs (i, seg)).mpr hseg, rfl, hw⟩

lemma mem_newStarts_seg (segs : List DubbingSegment) (b : Nat → Bool)
    (t : ℚ) (trig : List Nat) (i : Nat) (seg : DubbingSegment)
    (hb : b i = true) (hseg : segs.get? i = some seg) :
    (i ∈ newStarts b t trig segs.enum ↔ (i ∉ trig ∧ InWindow seg t)) := by
  rw [mem_newStarts, exists_enum_window_iff segs i seg t hseg]
  simp [hb]

lemma runTicks_count_and_mem (segs : List DubbingSegment) (b : Nat → Bool)
    (i : Nat) :
    ∀ (ts : List ℚ) (s : EngineState),
      s.startedLog.count i ≤ 1 →
      (i ∈ s.startedLog → i ∈ s.triggered) →
      ((runTicks segs b ts s).startedLog.count i ≤ 1 ∧
        (i ∈ (runTicks segs b ts s).startedLog →
          i ∈ (runTicks segs b ts s).triggered)) := by
  intro ts
  induction ts with
  | nil => intro s h1 h2; exact ⟨h1, h2⟩
  | cons t ts ih =>
    intro s h1 h2
    rw [runTicks_cons]
    refine ih (handleTimeUpdate segs b t s) ?_ ?_
    · rw [handleTimeUpdate_startedLog, List.count_append]
      by_cases him : i ∈ s.startedLog
      · have hz : (newStarts b t s.triggered segs.enum).count i = 0 :=
          List.count_eq_zero.mpr
            (not_mem_newStarts b t segs.enum s.triggered i (h2 him))
        rw [hz]
        simpa using h1
      · have hz : s.startedLog.count i = 0 := List.count_eq_zero.mpr him
        rw [hz]
        simpa using count_newStarts_le_one b t segs.enum s.triggered i
    · intro hmem
      rw [handleTimeUpdate_startedLog, List.mem_append] at hmem
      rw [handleTimeUpdate_mem_triggered]
      rcases hmem with h | h
      · exact Or.inl (h2 h)
      · exact Or.inr ((mem_newStarts b t segs.enum s.triggered i).mp h).2.2

lemma runTicks_mem_startedLog_iff (segs : List DubbingSegment)
    (b : Nat → Bool) (i : Nat) (seg : DubbingSegment)
    (hb : b i = true) (hseg : segs.get? i = some seg) :
    ∀ (ts : List ℚ) (s : EngineState),
      (i ∈ s.startedLog ↔ i ∈ s.triggered) →
      (i ∈ (runTicks segs b ts s).startedLog ↔
        (i ∈ s.startedLog ∨ ∃ t ∈ ts, InWindow seg t)) := by
  intro ts
  induction ts with
  | nil =>
    intro s hQ
    simp [runTicks_nil]
  | cons t ts ih =>
    intro s hQ
    have hA : (i ∈ (handleTimeUpdate segs b t s).startedLog ↔
        (i ∈ s.startedLog ∨ (i ∉ s.triggered ∧ InWindow seg t))) := by
      rw [handleTimeUpdate_startedLog, List.mem_append,
        mem_newStarts_seg segs b t s.triggered i seg hb hseg]
    have hQ' : (i ∈ (handleTimeUpdate segs b t s).startedLog ↔
        i ∈ (handleTimeUpdate segs b t s).triggered) := by
      rw [hA, handleTimeUpdate_mem_triggered,
        exists_enum_window_iff segs i seg t hseg]
      tauto
    rw [runTicks_cons, ih (handleTimeUpdate segs b t s) hQ', hA]
    have hEx : (∃ u ∈ t :: ts, InWindow seg u) ↔
        (InWindow seg t ∨ ∃ u ∈ ts, InWindow seg u) := by
      simp
    rw [hEx]
    tauto

lemma runTicks_not_started (segs : List DubbingSegment) (b : Nat → Bool)
    (i : Nat) (hb : b i = false) :
    ∀ (ts : List ℚ) (s : EngineState),
      i ∉ s.startedLog → i ∉ (runTicks segs b ts s).startedLog := by
  intro ts
  induction ts with
  | nil => intro s h; exact h
  | cons t ts ih =>
    intro s h
    rw [runTicks_cons]
    refine ih (handleTimeUpdate segs b t s) ?_
    intro hmem
    rw [handleTimeUpdate_startedLog, List.mem_append] at hmem
    rcases hmem with hmem | hmem
    · exact h hmem
    · have := ((mem_newStarts b t segs.enum s.triggered i).mp hmem).1
      rw [hb] at this
      simp at this

/-! ## Caption resolver: the reduce equals the specification function -/

lemma caption_foldl_no_op (segs : List DubbingSegment) (t : ℚ) :
    ∀ (ps : List (Nat × DubbingSegment)) (prev : Option DubbingSegment),
      (∀ p ∈ ps, ¬(p.2.startTime ≤ t)) →
      ps.foldl (captionStep segs t) prev = prev := by
  intro ps
  induction ps with
  | nil => intro prev _; rfl
  | cons p ps ih =>
    intro prev hall
    rw [List.foldl_cons]
    rw [show captionStep segs t prev p = prev from by
      simp [captionStep, hall p (List.mem_cons_self p ps)]]
    exact ih prev (fun q hq => hall q (List.mem_cons_of_mem p hq))

lemma caption_foldl_shift (t : ℚ) (full full' : List DubbingSegment)
    (hg : ∀ m, full.get? (m + 1) = full'.get? m) :
    ∀ (l : List DubbingSegment) (n : Nat) (prev : Option DubbingSegment),
      (l.enumFrom (n + 1)).foldl (captionStep full t) prev =
        (l.enumFrom n).foldl (captionStep full' t) prev := by
  intro l
  induction l with
  | nil => intro n prev; rfl
  | cons c l ih =>
    intro n prev
    show ((n + 1, c) :: l.enumFrom (n + 2)).foldl (captionStep full t) prev =
      ((n, c) :: l.enumFrom (n + 1)).foldl (captionStep full' t) prev
    rw [List.foldl_cons, List.foldl_cons]
    have hstep : captionStep full t prev (n + 1, c) =
        captionStep full' t prev (n, c) := by
      unfold captionStep captionCheck
      have : full.get? (n + 1 + 1) = full'.get? (n + 1) := hg (n + 1)
      simp only []
      rw [this]
    rw [hstep]
    exact ih (n + 1) (captionStep full' t prev (n, c))

lemma enumFrom_succ_map {α : Type} :
    ∀ (l : List α) (n : Nat),
      l.enumFrom (n + 1) = (l.enumFrom n).map (fun q => (q.1 + 1, q.2)) := by
  intro l
  induction l with
  | nil => intro n; rfl
  | cons a l ih =>
    intro n
    show (n + 1, a) :: l.enumFrom (n + 1 + 1) =
      ((n, a) :: l.enumFrom (n + 1)).map (fun q => (q.1 + 1, q.2))
    rw [List.map_cons, ih (n + 1)]

lemma specPick_cons_of_none (t : ℚ) (p : Nat × DubbingSegment)
    (ps : List (Nat × DubbingSegment)) (h : specPick t ps = none) :
    specPick t (p :: ps) = if p.2.startTime ≤ t then some p else none := by
  unfold specPick
  rw [h]

lemma specPick_cons_of_some (t : ℚ) (p q : Nat × DubbingSegment)
    (ps : List (Nat × DubbingSegment)) (h : specPick t ps = some q) :
    specPick t (p :: ps) =
      if p.2.startTime ≤ t ∧ q.2.startTime < p.2.startTime then some p
      else some q := by
  unfold specPick
  rw [h]

lemma specPick_map_shift (t : ℚ) :
    ∀ (ps : List (Nat × DubbingSegment)),
      specPick t (ps.map (fun q => (q.1 + 1, q.2))) =
        (specPick t ps).map (fun q => (q.1 + 1, q.2)) := by
  intro ps
  induction ps with
  | nil => rfl
  | cons p ps ih =>
    show specPick t ((p.1 + 1, p.2) :: ps.map (fun q => (q.1 + 1, q.2))) = _
    rcases h : specPick t ps with _ | q
    · have hm : specPick t (ps.map (fun q => (q.1 + 1, q.2))) = none := by
        rw [ih, h]
        rfl
      rw [specPick_cons_of_none t _ _ hm, specPick_cons_of_none t p ps h]
      by_cases hle : p.2.startTime ≤ t
      · simp [hle]
      · simp [hle]
    · have hm : specPick t (ps.map (fun q => (q.1 + 1, q.2))) =
          some (q.1 + 1, q.2) := by
        rw [ih, h]
        rfl
      rw [specPick_cons_of_some t _ _ _ hm, specPick_cons_of_some t p q ps h]
      by_cases hc : p.2.startTime ≤ t ∧ q.2.startTime < p.2.startTime
      · rw [if_pos (by simpa using hc), if_pos hc]
        rfl
      · rw [if_neg (by simpa using hc), if_neg hc]
        rfl

lemma specPick_eq_none (t : ℚ) :
    ∀ (ps : List (Nat × DubbingSegment)),
      (∀ p ∈ ps, ¬(p.2.startTime ≤ t)) → specPick t ps = none := by
  intro ps
  induction ps with
  | nil => intro _; rfl
  | cons p ps ih =>
    intro hall
    rw [specPick_cons_of_none t p ps
      (ih (fun q hq => hall q (List.mem_cons_of_mem p hq)))]
    rw [if_neg (hall p (List.mem_cons_self p ps))]

lemma specPick_none_forall (t : ℚ) :
    ∀ (ps : List (Nat × DubbingSegment)),
      specPick t ps = none → ∀ p ∈ ps, ¬(p.2.startTime ≤ t) := by
  intro ps
  induction ps with
  | nil => intro _ p hp; simp at hp
  | cons p ps ih =>
    intro hnone q hq
    rcases h : specPick t ps with _ | q'
    · rw [specPick_cons_of_none t p ps h] at hnone
      rcases List.mem_cons.mp hq with h1 | h2
      · subst h1
        intro hle
        rw [if_pos hle] at hnone
        exact Option.some_ne_none q hnone
      · exact ih h q h2
    · rw [specPick_cons_of_some t p q' ps h] at hnone
      exfalso
      by_cases hc : p.2.startTime ≤ t ∧ q'.2.startTime < p.2.startTime
      · rw [if_pos hc] at hnone
        exact Option.some_ne_none p hnone
      · rw [if_neg hc] at hnone
        exact Option.some_ne_none q' hnone

lemma specPick_mem_le (t : ℚ) :
    ∀ (ps : List (Nat × DubbingSegment)) (q : Nat × DubbingSegment),
      specPick t ps = some q → q ∈ ps ∧ q.2.startTime ≤ t := by
  intro ps
  induction ps with
  | nil => intro q h; simp [specPick] at h
  | cons p ps ih =>
    intro q hq
    rcases h : specPick t ps with _ | q'
    · rw [specPick_cons_of_none t p ps h] at hq
      split_ifs at hq with hc
      · injection hq with hq'
        subst hq'
        exact ⟨List.mem_cons_self p ps, hc⟩
    · rw [specPick_cons_of_some t p q' ps h] at hq
      by_cases hc : p.2.startTime ≤ t ∧ q'.2.startTime < p.2.startTime
      · rw [if_pos hc] at hq
        injection hq with hq'
        subst hq'
        exact ⟨List.mem_cons_self p ps, hc.1⟩
      · rw [if_neg hc] at hq
        injection hq with hq'
        subst hq'
        rcases ih q' h with ⟨hmem, hle⟩
        exact ⟨List.mem_cons_of_mem p hmem, hle⟩

lemma specPick_ge (t : ℚ) :
    ∀ (ps : List (Nat × DubbingSegment)) (q : Nat × DubbingSegment),
      specPick t ps = some q →
      ∀ p ∈ ps, p.2.startTime ≤ t → p.2.startTime ≤ q.2.startTime := by
  intro ps
  induction ps with
  | nil => intro q h; simp [specPick] at h
  | cons p ps ih =>
    intro q hq x hx hxle
    rcases h : specPick t ps with _ | q'
    · rw [specPick_cons_of_none t p ps h] at hq
      split_ifs at hq with hc
      · injection hq with hq'
        subst hq'
        rcases List.mem_cons.mp hx with h1 | h2
        · subst h1
          exact le_refl _
        · exact absurd hxle (specPick_none_forall t ps h x h2)
    · rw [specPick_cons_of_some t p q' ps h] at hq
      by_cases hc : p.2.startTime ≤ t ∧ q'.2.startTime < p.2.startTime
      · rw [if_pos hc] at hq
        injection hq with hq'
        subst hq'
        rcases List.mem_cons.mp hx with h1 | h2
        · subst h1
          exact le_refl _
        · exact le_of_lt (lt_of_le_of_lt (ih q' h x h2 hxle) hc.2)
      · rw [if_neg hc] at hq
        injection hq with hq'
        subst hq'
        rcases List.mem_cons.mp hx with h1 | h2
        · subst h1
          by_cases hlt : q'.2.startTime < x.2.startTime
          · exact absurd (And.intro hxle hlt) hc
          · exact le_of_not_lt hlt
        · exact ih q' h x h2 hxle

lemma specCaption_eval (t : ℚ) (segs : List DubbingSegment)
    (q : Nat × DubbingSegment) (h : specPick t segs.enum = some q) :
    specCaption t segs =
      (match segs.get? (q.1 + 1) with
        | some nextSeg => if t < nextSeg.startTime then some q.2.text else none
        | none => if t < q.2.startTime + 5 then some q.2.text else none) := by
  unfold specCaption
  rw [h]

lemma specCaption_drop_head (t : ℚ) (s1 s2 : DubbingSegment)
    (rest : List DubbingSegment) (h12 : s1.startTime < s2.startTime)
    (h2 : s2.startTime ≤ t) :
    specCaption t (s1 :: s2 :: rest) = specCaption t (s2 :: rest) := by
  have hmem0 : ((0 : Nat), s2) ∈ (s2 :: rest).enum :=
    (mem_enum_iff_get (s2 :: rest) (0, s2)).mpr rfl
  rcases hq : specPick t ((s2 :: rest).enum) with _ | q
  · exact absurd h2 (specPick_none_forall t _ hq (0, s2) hmem0)
  · have hge : s2.startTime ≤ q.2.startTime :=
      specPick_ge t _ q hq (0, s2) hmem0 h2
    have hpickshift : specPick t (((s2 :: rest).enum).map
        (fun r => (r.1 + 1, r.2))) = some (q.1 + 1, q.2) := by
      rw [specPick_map_shift, hq]
      rfl
    have henum : (s1 :: s2 :: rest).enum =
        (0, s1) :: ((s2 :: rest).enum).map (fun r => (r.1 + 1, r.2)) := by
      show (0, s1) :: (s2 :: rest).enumFrom (0 + 1) = _
      rw [enumFrom_succ_map (s2 :: rest) 0]
      rfl
    have hfull : specPick t ((s1 :: s2 :: rest).enum) = some (q.1 + 1, q.2) := by
      rw [henum, specPick_cons_of_some t (0, s1) (q.1 + 1, q.2) _ hpickshift]
      rw [if_neg ?hneg]
      case hneg =>
        intro hcc
        exact absurd hcc.2 (not_lt_of_le (le_of_lt (lt_of_lt_of_le h12 hge)))
    rw [specCaption_eval t (s1 :: s2 :: rest) (q.1 + 1, q.2) hfull,
      specCaption_eval t (s2 :: rest) q hq]
    rfl

theorem computeCaption_eq_specCaption :
    ∀ (segs : List DubbingSegment),
      List.Pairwise (fun a c => a.startTime < c.startTime) segs →
      ∀ t : ℚ, computeCaption segs t = specCaption t segs := by
  intro segs
  induction segs with
  | nil => intro _ t; rfl
  | cons s1 tail ih =>
    intro hsort t
    have hrel : ∀ x ∈ tail, s1.startTime < x.startTime :=
      (List.pairwise_cons.mp hsort).1
    have htail := (List.pairwise_cons.mp hsort).2
    by_cases h1 : s1.startTime ≤ t
    · cases tail with
      | nil =>
        have hpick : specPick t ([s1].enum) = some (0, s1) := by
          show specPick t [((0 : Nat), s1)] = _
          rw [specPick_cons_of_none t (0, s1) [] rfl, if_pos h1]
        rw [specCaption_eval t [s1] (0, s1) hpick]
        show (captionStep [s1] t none (0, s1)).map DubbingSegment.text = _
        rw [show captionStep [s1] t none (0, s1) =
            if t < s1.startTime + 5 then some s1 else none from by
          simp [captionStep, captionCheck, h1]]
        by_cases h5 : t < s1.startTime + 5
        · simp [h5]
        · simp [h5]
      | cons s2 rest =>
        have hg : ∀ m : Nat,
            (s1 :: s2 :: rest).get? (m + 1) = (s2 :: rest).get? m :=
          fun _ => rfl
        by_cases h2 : s2.startTime ≤ t
        · have hstep0 : captionStep (s1 :: s2 :: rest) t none (0, s1) = none := by
            simp [captionStep, captionCheck, h1, not_lt.mpr h2]
          have hcode : computeCaption (s1 :: s2 :: rest) t =
              computeCaption (s2 :: rest) t := by
            show (((s2 :: rest).enumFrom (0 + 1)).foldl
                (captionStep (s1 :: s2 :: rest) t)
                (captionStep (s1 :: s2 :: rest) t none (0, s1))).map
                  DubbingSegment.text = _
            rw [hstep0,
              caption_foldl_shift t (s1 :: s2 :: rest) (s2 :: rest) hg
                (s2 :: rest) 0 none]
            rfl
          rw [hcode, ih htail t,
            specCaption_drop_head t s1 s2 rest
              (hrel s2 (List.mem_cons_self s2 rest)) h2]
        · have hlt2 : t < s2.startTime := not_le.mp h2
          have hbig : ∀ x ∈ s2 :: rest, t < x.startTime := by
            intro x hx
            rcases List.mem_cons.mp hx with hh | hh
            · rw [hh]; exact hlt2
            · exact lt_trans hlt2 ((List.pairwise_cons.mp htail).1 x hh)
          have hstep0 : captionStep (s1 :: s2 :: rest) t none (0, s1) =
              some s1 := by
            simp [captionStep, captionCheck, h1, hlt2]
          have hcode : computeCaption (s1 :: s2 :: rest) t = some s1.text := by
            show (((s2 :: rest).enumFrom (0 + 1)).foldl
                (captionStep (s1 :: s2 :: rest) t)
                (captionStep (s1 :: s2 :: rest) t none (0, s1))).map
                  DubbingSegment.text = _
            rw [hstep0,
              caption_foldl_no_op (s1 :: s2 :: rest) t
                ((s2 :: rest).enumFrom (0 + 1)) (some s1)
                (fun p hp => not_le.mpr
                  (hbig p.2 (snd_mem_of_mem_enumFrom _ _ p hp)))]
            rfl
          have hnone : specPick t ((s2 :: rest).enum) = none :=
            specPick_eq_none t _
              (fun p hp => not_le.mpr
                (hbig p.2 (snd_mem_of_mem_enumFrom _ _ p hp)))
          have hshift : specPick t ((s2 :: rest).enumFrom (0 + 1)) = none := by
            rw [enumFrom_succ_map (s2 :: rest) 0]
            rw [show (s2 :: rest).enumFrom 0 = (s2 :: rest).enum from rfl]
            rw [specPick_map_shift, hnone]
            rfl
          have hpickfull : specPick t ((s1 :: s2 :: rest).enum) =
              some (0, s1) := by
            show specPick t ((0, s1) :: (s2 :: rest).enumFrom (0 + 1)) = _
            rw [specPick_cons_of_none t (0, s1) _ hshift, if_pos h1]
          rw [hcode, specCaption_eval t (s1 :: s2 :: rest) (0, s1) hpickfull]
          simp [hlt2]
    · have hlt1 : t < s1.startTime := not_le.mp h1
      have hbig : ∀ x ∈ s1 :: tail, ¬(x.startTime ≤ t) := by
        intro x hx
        rcases List.mem_cons.mp hx with hh | hh
        · rw [hh]; exact not_le.mpr hlt1
        · exact not_le.mpr (lt_trans hlt1 (hrel x hh))
      have hcode : computeCaption (s1 :: tail) t = none := by
        show (((s1 :: tail).enum).foldl (captionStep (s1 :: tail) t) none).map
            DubbingSegment.text = none
        rw [caption_foldl_no_op (s1 :: tail) t ((s1 :: tail).enum) none
          (fun p hp => hbig p.2 (snd_mem_of_mem_enumFrom _ _ p hp))]
        rfl
      have hnone : specPick t ((s1 :: tail).enum) = none :=
        specPick_eq_none t _
          (fun p hp => hbig p.2 (snd_mem_of_mem_enumFrom _ _ p hp))
      rw [hcode]
      unfold specCaption
      rw [hnone]

/-! ## MIME negotiation lemmas -/

lemma firstSupported_is_first (sup : String → Bool) :
    ∀ ts : List String, IsFirstSupportedFrom sup ts (firstSupported sup ts) := by
  intro ts
  induction ts with
  | nil =>
    right
    constructor
    · intro u hu
      simp at hu
    · rfl
  | cons c ts ih =>
    by_cases hc : sup c = true
    · left
      refine ⟨0, ?_, ?_, ?_⟩
      · rw [show firstSupported sup (c :: ts) = c from by
          simp [firstSupported, hc]]
        rfl
      · rw [show firstSupported sup (c :: ts) = c from by
          simp [firstSupported, hc]]
        exact hc
      · intro j hj u _
        omega
    · have hcf : sup c = false := by
        simpa using hc
      have hrest : firstSupported sup (c :: ts) = firstSupported sup ts := by
        simp [firstSupported, hcf]
      rw [hrest]
      rcases ih with ⟨i, hgi, hsi, hlt⟩ | ⟨hall, heq⟩
      · left
        refine ⟨i + 1, ?_, hsi, ?_⟩
        · exact hgi
        · intro j hj u hju
          cases j with
          | zero =>
            have : u = c := by
              injection hju with hju'
              exact hju'.symm
            rw [this]
            exact hcf
          | succ j =>
            exact hlt j (by omega) u hju
      · right
        refine ⟨?_, heq⟩
        intro u hu
        rcases List.mem_cons.mp hu with h | h
        · rw [h]
          exact hcf
        · exact hall u h

lemma chooseMimeStartExport_eq_firstSupported (sup : String → Bool) :
    chooseMimeStartExport sup =
      firstSupported sup ["video/mp4", "video/webm;codecs=vp9"] := by
  by_cases h1 : sup "video/mp4" = true
  · simp [chooseMimeStartExport, firstSupported, h1]
  · have h1f : sup "video/mp4" = false := by simpa using h1
    by_cases h2 : sup "video/webm;codecs=vp9" = true
    · simp [chooseMimeStartExport, firstSupported, h1f, h2]
    · have h2f : sup "video/webm;codecs=vp9" = false := by simpa using h2
      simp [chooseMimeStartExport, firstSupported, h1f, h2f]

/-! ## Claim theorems -/

/-- C1: over any playback pass (ticks in non-decreasing order, no seek,
all buffers decoded, starting with an empty triggered set and trigger
log), segment `i`'s voice is started exactly when some tick falls in
`[startTime_i, startTime_i + 0.3)`, and it is started at most once; in
the scenario with segments `[{0,"Hi"},{2,"Bye"}]` and ticks
`0.05, 0.25, 1.9, 2.05, 2.3`, exactly segment 0 fires at `t = 0.05` and
segment 1 at `t = 2.05`. -/
theorem C1_trigger_window_iff :
    (∀ (segs : List DubbingSegment) (b : Nat → Bool) (ticks : List ℚ)
        (s : EngineState) (i : Nat) (seg : DubbingSegment),
      List.Chain' (· ≤ ·) ticks →
      (∀ k, b k = true) →
      segs.get? i = some seg →
      s.triggered = [] → s.startedLog = [] →
      ((runTicks segs b ticks s).startedLog.count i ≤ 1 ∧
        (i ∈ (runTicks segs b ticks s).startedLog ↔
          ∃ t ∈ ticks, InWindow seg t)))
    ∧ (runTicks demoSegs allBuffers [1/20] playingState).startedLog = [0]
    ∧ (runTicks demoSegs allBuffers [1/20, 1/4, 19/10]
        playingState).startedLog = [0]
    ∧ (runTicks demoSegs allBuffers [1/20, 1/4, 19/10, 41/20]
        playingState).startedLog = [0, 1]
    ∧ (runTicks demoSegs allBuffers demoTicks playingState).startedLog
        = [0, 1] := by
  constructor
  · intro segs b ticks s i seg _ hb hseg htrig hlog
    constructor
    · exact (runTicks_count_and_mem segs b i ticks s
        (by rw [hlog]; simp) (by rw [hlog]; simp)).1
    · have hQ : (i ∈ s.startedLog ↔ i ∈ s.triggered) := by
        rw [hlog, htrig]
      rw [runTicks_mem_startedLog_iff segs b i seg (hb i) hseg ticks s hQ,
        hlog]
      simp
  · refine ⟨?_, ?_, ?_, ?_⟩ <;>
      norm_num [runTicks, handleTimeUpdate, captionPhase, computeCaption,
        computeActiveCaption, captionStep, captionCheck, smartPausePhase,
        triggerPhase, triggerStep, playSegmentAudio, InWindow, demoSegs,
        demoTicks, playingState, initState, allBuffers, List.enum,
        List.enumFrom]

theorem C1_witness :
    (runTicks demoSegs allBuffers demoTicks playingState).startedLog.count 0
        ≤ 1 ∧
    (0 ∈ (runTicks demoSegs allBuffers demoTicks playingState).startedLog ↔
      ∃ t ∈ demoTicks, InWindow ⟨0, "Hi", "a"⟩ t) :=
  C1_trigger_window_iff.1 demoSegs allBuffers demoTicks playingState 0
    ⟨0, "Hi", "a"⟩
    (by norm_num [demoTicks, List.chain'_cons])
    (fun _ => rfl) rfl rfl rfl

/-- C2 counterexample: with segment 1 starting at `2.0` and segment 0
tracked, a tick at `t = 2.3` (so `timeToNext = -0.3`) still transitions
the controller to HOLDING, although the claim's condition
`0 ≤ timeToNext` fails there: the code's lower bound is `-0.5`, not
`0`. -/
theorem C2_counterexample :
    demoSegs.get? 1 = some ⟨2, "Bye", "b"⟩ ∧
    afterFirstTick.activeSegmentIndex = some 0 ∧
    afterFirstTick.isVideoPausedForDub = false ∧
    afterFirstTick.videoPaused = false ∧
    (handleTimeUpdate demoSegs allBuffers (23/10)
      afterFirstTick).isVideoPausedForDub = true ∧
    ¬(0 ≤ (2 : ℚ) - 23/10) := by
  refine ⟨rfl, ?_, ?_, ?_, ?_, by norm_num⟩ <;>
    norm_num [afterFirstTick, runTicks, handleTimeUpdate, captionPhase,
      computeCaption, computeActiveCaption, captionStep, captionCheck,
      smartPausePhase, triggerPhase, triggerStep, playSegmentAudio,
      InWindow, demoSegs, playingState, initState, allBuffers, List.enum,
      List.enumFrom]

/-- C2 (amended): on a tick, the smart-pause controller transitions FREE
to HOLDING (setting the hold flag and pausing the video) exactly when an
`activeSegmentIndex` is set, the next segment exists, and
`timeToNext = nextSegment.startTime - currentTime` satisfies
`-0.5 < timeToNext ≤ 0.2` (not `0 ≤ timeToNext`), with the video
transport not already paused; with `activeSegmentIndex = 0` and
`nextSegment.startTime = 2.0`, a tick at `t = 1.85` transitions to
HOLDING and a tick at `t = 1.5` stays FREE. -/
theorem C2_smart_pause_characterization :
    (∀ (segs : List DubbingSegment) (t : ℚ) (s : EngineState),
      s.isVideoPausedForDub = false →
      (((smartPausePhase segs t s).isVideoPausedForDub = true ↔
        ∃ i nextSeg, s.activeSegmentIndex = some i ∧
          segs.get? (i + 1) = some nextSeg ∧
          nextSeg.startTime - t ≤ 1/5 ∧ -(1/2) < nextSeg.startTime - t ∧
          s.videoPaused = false) ∧
       ((smartPausePhase segs t s).isVideoPausedForDub = true →
         (smartPausePhase segs t s).videoPaused = true)))
    ∧ (handleTimeUpdate demoSegs allBuffers (37/20)
        afterFirstTick).isVideoPausedForDub = true
    ∧ (handleTimeUpdate demoSegs allBuffers (37/20)
        afterFirstTick).videoPaused = true
    ∧ (handleTimeUpdate demoSegs allBuffers (3/2)
        afterFirstTick).isVideoPausedForDub = false := by
  refine ⟨fun segs t s hfree => smartPausePhase_fires_iff segs t s hfree,
    ?_, ?_, ?_⟩ <;>
    norm_num [afterFirstTick, runTicks, handleTimeUpdate, captionPhase,
      computeCaption, computeActiveCaption, captionStep, captionCheck,
      smartPausePhase, triggerPhase, triggerStep, playSegmentAudio,
      InWindow, demoSegs, playingState, initState, allBuffers, List.enum,
      List.enumFrom]

theorem C2_witness :
    (smartPausePhase demoSegs (37/20) afterFirstTick).isVideoPausedForDub
      = true := by
  apply ((C2_smart_pause_characterization.1 demoSegs (37/20) afterFirstTick
    (by norm_num [afterFirstTick, runTicks, handleTimeUpdate, captionPhase,
      computeCaption, computeActiveCaption, captionStep, captionCheck,
      smartPausePhase, triggerPhase, triggerStep, playSegmentAudio,
      InWindow, demoSegs, playingState, initState, allBuffers, List.enum,
      List.enumFrom])).1).mpr
  refine ⟨0, ⟨2, "Bye", "b"⟩, ?_, rfl, by norm_num, by norm_num, ?_⟩ <;>
    norm_num [afterFirstTick, runTicks, handleTimeUpdate, captionPhase,
      computeCaption, computeActiveCaption, captionStep, captionCheck,
      smartPausePhase, triggerPhase, triggerStep, playSegmentAudio,
      InWindow, demoSegs, playingState, initState, allBuffers, List.enum,
      List.enumFrom]

/-- C3: in every state reachable from the initial state by any
interleaving of ticks, voice-completion callbacks, seeks and play/pause
toggles, the hold flag is never set while `activeSegmentIndex` is
`none`. -/
theorem C3_hold_implies_tracked :
    ∀ (segs : List DubbingSegment) (b : Nat → Bool)
      (evs : List PlayerEvent),
      (runEvents segs b evs initState).isVideoPausedForDub = true →
      (runEvents segs b evs initState).activeSegmentIndex ≠ none := by
  intro segs b evs h hn
  have hInv := inv_runEvents segs b evs initState inv_initState
  have hsome := (hInv.1 h).1
  rw [hn] at hsome
  simp at hsome

theorem C3_witness :
    (runEvents demoSegs allBuffers demoEvents initState).isVideoPausedForDub
        = true ∧
    (runEvents demoSegs allBuffers demoEvents
        initState).activeSegmentIndex ≠ none := by
  have h : (runEvents demoSegs allBuffers demoEvents
      initState).isVideoPausedForDub = true := by
    norm_num [runEvents, stepEvent, demoEvents, handleTimeUpdate,
      captionPhase, computeCaption, computeActiveCaption, captionStep,
      captionCheck, smartPausePhase, triggerPhase, triggerStep,
      playSegmentAudio, togglePlay, stopAllAudio, InWindow, demoSegs,
      initState, allBuffers, List.enum, List.enumFrom]
  exact ⟨h, C3_hold_implies_tracked demoSegs allBuffers demoEvents h⟩

/-- C4: a tick never clears the hold; the voice-completion callback
clears it only for the tracked voice (index equal to
`activeSegmentIndex`) with play intent still true, in which case it also
resumes the video within that invocation; with play intent false the
callback changes neither the hold flag nor the video's paused state. -/
theorem C4_holding_release :
    (∀ (segs : List DubbingSegment) (b : Nat → Bool) (t : ℚ)
        (s : EngineState),
      s.isVideoPausedForDub = true →
      (handleTimeUpdate segs b t s).isVideoPausedForDub = true)
    ∧ (∀ (v : Voice) (s : EngineState),
      s.isVideoPausedForDub = true →
      (onVoiceEnded v s).isVideoPausedForDub = false →
      (s.activeSegmentIndex = some v.index ∧ s.isPlaying = true))
    ∧ (∀ (v : Voice) (s : EngineState),
      s.isVideoPausedForDub = true → s.isPlaying = true →
      s.activeSegmentIndex = some v.index →
      ((onVoiceEnded v s).isVideoPausedForDub = false ∧
       (onVoiceEnded v s).videoPaused = false))
    ∧ (∀ (v : Voice) (s : EngineState),
      s.isPlaying = false →
      ((onVoiceEnded v s).isVideoPausedForDub = s.isVideoPausedForDub ∧
       (onVoiceEnded v s).videoPaused = s.videoPaused)) := by
  refine ⟨fun segs b t s h => handleTimeUpdate_hold_true segs b t s h,
    ?_, ?_, ?_⟩
  · intro v s hh hf
    unfold onVoiceEnded at hf
    by_cases h1 : s.activeSegmentIndex = some v.index
    · rw [if_pos h1] at hf
      by_cases h2 : s.isVideoPausedForDub = true ∧ s.isPlaying = true
      · exact ⟨h1, h2.2⟩
      · rw [if_neg h2] at hf
        exact absurd (show s.isVideoPausedForDub = false from hf)
          (by simp [hh])
    · rw [if_neg h1] at hf
      exact absurd (show s.isVideoPausedForDub = false from hf)
        (by simp [hh])
  · intro v s hh hp hact
    unfold onVoiceEnded
    rw [if_pos hact, if_pos (show s.isVideoPausedForDub = true ∧
      s.isPlaying = true from ⟨hh, hp⟩)]
    exact ⟨rfl, rfl⟩
  · intro v s hp
    unfold onVoiceEnded
    have hcond : ¬(s.isVideoPausedForDub = true ∧ s.isPlaying = true) := by
      intro hc
      rw [hp] at hc
      exact absurd hc.2 (by simp)
    by_cases h1 : s.activeSegmentIndex = some v.index
    · rw [if_pos h1, if_neg hcond]
      exact ⟨rfl, rfl⟩
    · rw [if_neg h1]
      exact ⟨rfl, rfl⟩

theorem C4_witness :
    (onVoiceEnded ⟨0, 0⟩ (runEvents demoSegs allBuffers demoEvents
        initState)).isVideoPausedForDub = false ∧
    (onVoiceEnded ⟨0, 0⟩ (runEvents demoSegs allBuffers demoEvents
        initState)).videoPaused = false := by
  apply C4_holding_release.2.2.1 ⟨0, 0⟩ <;>
    norm_num [runEvents, stepEvent, demoEvents, handleTimeUpdate,
      captionPhase, computeCaption, computeActiveCaption, captionStep,
      captionCheck, smartPausePhase, triggerPhase, triggerStep,
      playSegmentAudio, togglePlay, stopAllAudio, InWindow, demoSegs,
      initState, allBuffers, List.enum, List.enumFrom]

/-- C5: for every segment list sorted by strictly increasing start time
and every time `t`, the caption the tick handler computes equals the
specification resolver (largest `startTime ≤ t`, shown while
`t < effectiveEnd`, where `effectiveEnd` is the next segment's start or
the picked segment's start plus 5 s); in the scenario, the caption at
`t = 1.0` is `"Hi"` and at `t = 7.0` there is none. -/
theorem C5_caption_resolver :
    (∀ (segs : List DubbingSegment),
      List.Pairwise (fun a c => a.startTime < c.startTime) segs →
      ∀ t : ℚ, computeCaption segs t = specCaption t segs)
    ∧ computeCaption demoSegs 1 = some "Hi"
    ∧ computeCaption demoSegs 7 = none := by
  refine ⟨computeCaption_eq_specCaption, ?_, ?_⟩ <;>
    norm_num [computeCaption, computeActiveCaption, captionStep,
      captionCheck, demoSegs, List.enum, List.enumFrom]

theorem C5_witness :
    computeCaption demoSegs (3/2) = specCaption (3/2) demoSegs :=
  C5_caption_resolver.1 demoSegs
    (by norm_num [demoSegs, List.pairwise_cons]) (3/2)

/-- C6: a seek clears the triggered set, stops all voices, and clears
`activeSegmentIndex` and the hold flag; consequently any segment whose
trigger window contains a later tick fires again: its index re-enters
the triggered set and a fresh voice start is appended to the log. -/
theorem C6_seek_retrigger :
    (∀ (t : ℚ) (s : EngineState),
      (handleSeek t s).triggered = [] ∧
      (handleSeek t s).activeSources = [] ∧
      (handleSeek t s).activeSegmentIndex = none ∧
      (handleSeek t s).isVideoPausedForDub = false)
    ∧ (∀ (segs : List DubbingSegment) (b : Nat → Bool) (t u : ℚ)
        (s : EngineState) (i : Nat) (seg : DubbingSegment),
      b i = true → segs.get? i = some seg → InWindow seg u →
      (i ∈ (handleTimeUpdate segs b u (handleSeek t s)).triggered ∧
        i ∈ ((handleTimeUpdate segs b u
          (handleSeek t s)).startedLog.drop s.startedLog.length))) := by
  constructor
  · intro t s
    exact ⟨rfl, rfl, rfl, rfl⟩
  · intro segs b t u s i seg hb hseg hw
    constructor
    · rw [handleTimeUpdate_mem_triggered]
      exact Or.inr ((exists_enum_window_iff segs i seg u hseg).mpr hw)
    · rw [handleTimeUpdate_startedLog]
      rw [show (handleSeek t s).startedLog = s.startedLog from rfl]
      rw [show (handleSeek t s).triggered = ([] : List Nat) from rfl]
      rw [List.drop_left]
      exact (mem_newStarts_seg segs b u [] i seg hb hseg).mpr
        ⟨by simp, hw⟩

theorem C6_witness :
    0 ∈ (handleTimeUpdate demoSegs allBuffers (1/10)
        (handleSeek 5 afterFirstTick)).triggered ∧
    0 ∈ ((handleTimeUpdate demoSegs allBuffers (1/10)
        (handleSeek 5 afterFirstTick)).startedLog.drop
          afterFirstTick.startedLog.length) :=
  C6_seek_retrigger.2 demoSegs allBuffers 5 (1/10) afterFirstTick 0
    ⟨0, "Hi", "a"⟩ rfl rfl (by norm_num [InWindow])

/-- C7: a segment whose audio asset failed to fetch or decode (its
buffer is absent) never has a voice started on any tick of a playback
pass, while every segment whose buffer decoded is triggered exactly
according to its window, unaffected by the failure. -/
theorem C7_decode_failure_contained :
    (∀ (segs : List DubbingSegment) (b : Nat → Bool) (i : Nat)
        (ts : List ℚ),
      b i = false →
      i ∉ (runTicks segs b ts initState).startedLog)
    ∧ (∀ (segs : List DubbingSegment) (b : Nat → Bool) (j : Nat)
        (seg : DubbingSegment) (ts : List ℚ),
      b j = true → segs.get? j = some seg →
      (j ∈ (runTicks segs b ts initState).startedLog ↔
        ∃ t ∈ ts, InWindow seg t)) := by
  constructor
  · intro segs b i ts hb
    exact runTicks_not_started segs b i hb ts initState (by simp [initState])
  · intro segs b j seg ts hb hseg
    rw [runTicks_mem_startedLog_iff segs b j seg hb hseg ts initState
      (by simp [initState])]
    simp [initState]

theorem C7_witness :
    0 ∉ (runTicks demoSegs (fun k => k != 0) demoTicks
        initState).startedLog ∧
    1 ∈ (runTicks demoSegs (fun k => k != 0) demoTicks
        initState).startedLog :=
  ⟨C7_decode_failure_contained.1 demoSegs (fun k => k != 0) 0 demoTicks rfl,
   (C7_decode_failure_contained.2 demoSegs (fun k => k != 0) 1
      ⟨2, "Bye", "b"⟩ demoTicks rfl rfl).mpr
     ⟨41/20, by norm_num [demoTicks], by norm_num [InWindow]⟩⟩

/-- C8: evaluation of the export error paths at the initial state.  In
variant B (`handleExport`), an unsupported-capture or recorder
construction error is raised outside any `try` block, so `isExporting`
remains `true` (the session is stuck in the recording state) and nothing
is torn down; in variant A (`handleStartExport`), a `video.play()`
rejection is caught and the exporting flags cleared, but the
already-started recorder is not stopped and play intent remains set. -/
theorem C8_export_error_evaluation :
    (handleExport (some .captureUnsupported) initState).isExporting = true ∧
    (handleExport (some .captureUnsupported) initState).recorderActive
        = false ∧
    (handleExport (some .captureUnsupported) initState).isPlaying = true ∧
    (handleStartExport (some .playFail) initState).isExporting = false ∧
    (handleStartExport (some .playFail) initState).isExportingRef = false ∧
    (handleStartExport (some .playFail) initState).drawLoop = false ∧
    (handleStartExport (some .playFail) initState).recorderActive = true ∧
    (handleStartExport (some .playFail) initState).isPlaying = true :=
  ⟨rfl, rfl, rfl, rfl, rfl, rfl, rfl, rfl⟩

/-- C9 counterexample: in a runtime that supports exactly
`video/mp4;codecs=avc1,mp4a.40.2`, variant B's `getSupportedMimeType`
returns it (the first supported entry of the 4-element preference list),
but variant A's `handleStartExport` selection returns `video/webm`: the
share-variant export does not consult the claimed 4-element list. -/
theorem C9_counterexample :
    getSupportedMimeType
        (fun s => s == "video/mp4;codecs=avc1,mp4a.40.2") =
      "video/mp4;codecs=avc1,mp4a.40.2" ∧
    chooseMimeStartExport
        (fun s => s == "video/mp4;codecs=avc1,mp4a.40.2") =
      "video/webm" := by
  constructor <;> rfl

/-- C9 (amended): variant B's `getSupportedMimeType` picks the first
runtime-supported entry of the 4-element preference list with
`video/webm` as fallback; variant A's `handleStartExport` instead scans
only `video/mp4` then `video/webm;codecs=vp9` with the same fallback;
and the artifact extension is `mp4` exactly when the chosen MIME type
contains the substring `mp4`, `webm` otherwise. -/
theorem C9_mime_negotiation :
    (∀ sup : String → Bool,
      IsFirstSupportedFrom sup mimeCandidates (getSupportedMimeType sup))
    ∧ (∀ sup : String → Bool,
      chooseMimeStartExport sup =
        firstSupported sup ["video/mp4", "video/webm;codecs=vp9"])
    ∧ (∀ m : String, extForMime m = "mp4" ↔ strIncludes m "mp4" = true)
    ∧ extForMime "video/mp4;codecs=avc1,mp4a.40.2" = "mp4"
    ∧ extForMime "video/mp4" = "mp4"
    ∧ extForMime "video/webm;codecs=vp9,opus" = "webm"
    ∧ extForMime "video/webm" = "webm"
    ∧ extForMime "video/webm;codecs=vp9" = "webm" := by
  refine ⟨fun sup => firstSupported_is_first sup mimeCandidates,
    chooseMimeStartExport_eq_firstSupported, ?_, ?_, ?_, ?_, ?_, ?_⟩
  · intro m
    by_cases h : strIncludes m "mp4" = true
    · simp [extForMime, h]
    · have hf : strIncludes m "mp4" = false := by simpa using h
      simp [extForMime, hf]
  · decide
  · decide
  · decide
  · decide
  · decide

theorem C9_witness :
    extForMime "video/mp4" = "mp4" ↔
      strIncludes "video/mp4" "mp4" = true :=
  C9_mime_negotiation.2.2.1 "video/mp4"

/-- C10: every seek clears the stored finished export artifact
(`setRecordedBlob(null)`), in addition to clearing the triggered set,
stopping all voices and clearing the tracking state. -/
theorem C10_seek_clears_artifact :
    ∀ (t : ℚ) (s : EngineState),
      (handleSeek t s).recordedBlob = none ∧
      (handleSeek t s).triggered = [] ∧
      (handleSeek t s).activeSources = [] ∧
      (handleSeek t s).activeSegmentIndex = none ∧
      (handleSeek t s).isVideoPausedForDub = false :=
  fun _ _ => ⟨rfl, rfl, rfl, rfl, rfl⟩

end DubPlayer
